import Mathlib

/-!
Verification development for the redis-liveset replication engine
(`src/main/operations.ts`, `src/main/store.ts`, `src/main/index.ts` and the
newer index variant among the unnamed sources).

The embedding is a shallow one: the single-threaded, event-driven engine is
modelled as a pure step function over an explicit state record; redis
side-effects (set writes and channel publishes) are recorded in a command
trace.  Wire strings are identified with the JSON value they parse to
(`JSON.stringify` is injective on JSON-safe values and the transport carries
strings faithfully), so `Ser` wraps the parsed value and `JSON.parse` is the
projection `Ser.val`.
-/

set_option linter.unusedVariables false

namespace LiveSet

/-- JSON values: the decoded form of every wire payload and every set member.
Set members are arbitrary JSON-serializable values (`T` in the source);
instantiating the member type at `JVal` keeps the serialization layer
explicit. -/
inductive JVal where
  | null : JVal
  | bool : Bool → JVal
  | num : Int → JVal
  | str : String → JVal
  | arr : List JVal → JVal
  | obj : List (String × JVal) → JVal

mutual

/-- Structural equality of JSON values (the `===`-on-canonical-encoding
equality the immutable collection keys members by). -/
def JVal.beq : JVal → JVal → Bool
  | .null, .null => true
  | .bool a, .bool b => a == b
  | .num a, .num b => a == b
  | .str a, .str b => a == b
  | .arr xs, .arr ys => beqListJ xs ys
  | .obj fs, .obj gs => beqObjJ fs gs
  | _, _ => false

def beqListJ : List JVal → List JVal → Bool
  | [], [] => true
  | x :: xs, y :: ys => JVal.beq x y && beqListJ xs ys
  | _, _ => false

def beqObjJ : List (String × JVal) → List (String × JVal) → Bool
  | [], [] => true
  | (k, x) :: fs, (l, y) :: gs => k == l && JVal.beq x y && beqObjJ fs gs
  | _, _ => false

end

theorem beqListJ_iff (xs ys : List JVal)
    (ih : ∀ x ∈ xs, ∀ b : JVal, (JVal.beq x b = true ↔ x = b)) :
    beqListJ xs ys = true ↔ xs = ys := by
  induction xs generalizing ys with
  | nil => cases ys <;> simp [beqListJ]
  | cons x xs ihl =>
    cases ys with
    | nil => simp [beqListJ]
    | cons y ys =>
      have h1 := ih x (List.mem_cons_self x xs) y
      have h2 := ihl ys (fun z hz b => ih z (List.mem_cons_of_mem x hz) b)
      simp [beqListJ, h1, h2]

theorem beqObjJ_iff (fs gs : List (String × JVal))
    (ih : ∀ p ∈ fs, ∀ b : JVal, (JVal.beq p.2 b = true ↔ p.2 = b)) :
    beqObjJ fs gs = true ↔ fs = gs := by
  induction fs generalizing gs with
  | nil => cases gs <;> simp [beqObjJ]
  | cons f fs ihl =>
    cases gs with
    | nil => simp [beqObjJ]
    | cons g gs =>
      obtain ⟨k, x⟩ := f
      obtain ⟨l, y⟩ := g
      have h1 := ih ⟨k, x⟩ (List.mem_cons_self _ fs) y
      have h2 := ihl gs (fun z hz b => ih z (List.mem_cons_of_mem _ hz) b)
      try simp only [Prod.snd] at h1
      simp [beqObjJ, h1, h2, Prod.ext_iff, and_assoc]

theorem beq_iff_aux : ∀ (n : Nat) (a b : JVal), sizeOf a ≤ n →
    (JVal.beq a b = true ↔ a = b) := by
  intro n
  induction n using Nat.strong_induction_on with
  | _ n IH =>
    intro a b hle
    cases a <;> cases b <;> simp_all [JVal.beq]
    case arr.arr xs ys =>
      rw [beqListJ_iff]
      intro x hx b
      have h2 := List.sizeOf_lt_of_mem hx
      try simp only [JVal.arr.sizeOf_spec] at hle
      exact IH (sizeOf x) (by omega) x b le_rfl
    case obj.obj fs gs =>
      rw [beqObjJ_iff]
      intro p hp b
      have h1 := List.sizeOf_lt_of_mem hp
      obtain ⟨k, v⟩ := p
      simp only [Prod.mk.sizeOf_spec] at h1
      try simp only [JVal.obj.sizeOf_spec] at hle
      exact IH (sizeOf v) (by omega) v b le_rfl

theorem JVal.beq_iff (a b : JVal) : JVal.beq a b = true ↔ a = b :=
  beq_iff_aux (sizeOf a) a b le_rfl

instance : DecidableEq JVal := fun a b =>
  decidable_of_iff (JVal.beq a b = true) (JVal.beq_iff a b)

/-- The five mutation kinds of `operations.ts` (`LiveSetOp<T>`). -/
inductive LiveSetOp (T : Type) where
  | Add : T → LiveSetOp T
  | Remove : T → LiveSetOp T
  | Clear : LiveSetOp T
  | AddAll : List T → LiveSetOp T
  | ReplaceAll : List T → LiveSetOp T
deriving DecidableEq

/-- `apply` from `operations.ts` (lines 171-184): the pure state-transition
function over an immutable set.  `set.add` is `insert`, `set.remove` is
`erase`, `set.clear()` is `∅`, `set.union(values)` is union with
`values.toFinset`, `Set(values)` is `values.toFinset`.  The match is
exhaustive over the five variants; there is no default or error case. -/
def apply {T : Type} [DecidableEq T] (set : Finset T) (event : LiveSetOp T) : Finset T :=
  match event with
  | .Add v => insert v set
  | .Remove v => set.erase v
  | .Clear => ∅
  | .AddAll vs => set ∪ vs.toFinset
  | .ReplaceAll vs => vs.toFinset

/-- Field lookup on a decoded JSON object. -/
def lookupField : List (String × JVal) → String → Option JVal
  | [], _ => none
  | (k, v) :: rest, key => if k = key then some v else lookupField rest key

/-- `hasFields` check of a single field against a matcher: the field must be
present and its value must satisfy the matcher. -/
def matchField (fs : List (String × JVal)) (key : String) (m : JVal → Bool) : Bool :=
  match lookupField fs key with
  | some v => m v
  | none => false

/-- `isValue("Tag")` applied to the `_tag` field of an object. -/
def isValueTag (fs : List (String × JVal)) (t : String) : Bool :=
  decide (lookupField fs "_tag" = some (.str t))

/-- `isArrayOf(valueMatch)` from typematcher: an array whose every element
matches. -/
def isArrayOfJ (m : JVal → Bool) : JVal → Bool
  | .arr xs => xs.all m
  | _ => false

/-- `LiveSetOp.isAdd` (operations.ts lines 48-53). -/
def isAdd (m : JVal → Bool) : JVal → Bool
  | .obj fs => isValueTag fs "Add" && matchField fs "value" m
  | _ => false

/-- `LiveSetOp.isRemove` (operations.ts lines 58-63). -/
def isRemove (m : JVal → Bool) : JVal → Bool
  | .obj fs => isValueTag fs "Remove" && matchField fs "value" m
  | _ => false

/-- `LiveSetOp.isClear` (operations.ts lines 68-72). -/
def isClear : JVal → Bool
  | .obj fs => isValueTag fs "Clear"
  | _ => false

/-- `LiveSetOp.isAddAll` (operations.ts lines 77-82). -/
def isAddAll (m : JVal → Bool) : JVal → Bool
  | .obj fs => isValueTag fs "AddAll" && matchField fs "values" (isArrayOfJ m)
  | _ => false

/-- `LiveSetOp.isReplaceAll` (operations.ts lines 84-89). -/
def isReplaceAll (m : JVal → Bool) : JVal → Bool
  | .obj fs => isValueTag fs "ReplaceAll" && matchField fs "values" (isArrayOfJ m)
  | _ => false

/-- `isLiveSetOp` (operations.ts lines 105-119): the nested `isEither` chain
over the five recognizers. -/
def isLiveSetOp (m : JVal → Bool) (v : JVal) : Bool :=
  isAdd m v || (isRemove m v || (isClear v || (isAddAll m v || isReplaceAll m v)))

/-- The JSON object form of an operation, as built by the constructors in
`operations.ts` (lines 124-166) and serialized by `JSON.stringify(op)`. -/
def encodeOp : LiveSetOp JVal → JVal
  | .Add v => .obj [("_tag", .str "Add"), ("value", v)]
  | .Remove v => .obj [("_tag", .str "Remove"), ("value", v)]
  | .Clear => .obj [("_tag", .str "Clear")]
  | .AddAll vs => .obj [("_tag", .str "AddAll"), ("values", .arr vs)]
  | .ReplaceAll vs => .obj [("_tag", .str "ReplaceAll"), ("values", .arr vs)]

/-- Structural extraction of an operation from a decoded payload.  In the
source the recognizer is a type guard and the payload object itself is then
used as the operation; the extraction makes that cast explicit. -/
def toOp : JVal → Option (LiveSetOp JVal)
  | .obj fs =>
    match lookupField fs "_tag" with
    | some (.str "Add") => (lookupField fs "value").map .Add
    | some (.str "Remove") => (lookupField fs "value").map .Remove
    | some (.str "Clear") => some .Clear
    | some (.str "AddAll") =>
      match lookupField fs "values" with
      | some (.arr xs) => some (.AddAll xs)
      | _ => none
    | some (.str "ReplaceAll") =>
      match lookupField fs "values" with
      | some (.arr xs) => some (.ReplaceAll xs)
      | _ => none
    | _ => none
  | _ => none

/-- Whether every value embedded in a structured operation satisfies the
configured matcher.  On the operation objects the engine itself constructs
this is exactly what `isLiveSetOp(typeMatcher)` checks, so it is the guard
the reducer's `caseWhen` clauses apply to structured actions. -/
def opMatches (m : JVal → Bool) : LiveSetOp JVal → Bool
  | .Add v => m v
  | .Remove v => m v
  | .Clear => true
  | .AddAll vs => vs.all m
  | .ReplaceAll vs => vs.all m

/-- A wire or redis bulk string, identified with the JSON value it is the
canonical serialization of (`JSON.stringify` is injective on JSON-safe
values; `JSON.parse` is the projection `val`). -/
structure Ser where
  val : JVal
deriving DecidableEq

/-- `JSON.stringify(op)`: the payload published for an operation
(store.ts line 153). -/
def encodePayload (op : LiveSetOp JVal) : Ser :=
  Ser.mk (encodeOp op)

/-- The decoding pipeline of the `message` handler (store.ts lines 217-224):
`JSON.parse` the payload, then accept it only if the operation recognizer
does. -/
def decodePayload (m : JVal → Bool) (p : Ser) : Option (LiveSetOp JVal) :=
  if isLiveSetOp m p.val then toOp p.val else none

/-- `typematcher.isNumber`, the matcher `createNumbersLiveSet` configures. -/
def isNumberJ : JVal → Bool
  | .num _ => true
  | _ => false

/-- A decoded payload that is an object carrying a `_tag` discriminator
that is none of the five operation tags. -/
def hasUnknownTag : JVal → Bool
  | .obj fs =>
    match lookupField fs "_tag" with
    | some (.str t) =>
      !(t == "Add" || t == "Remove" || t == "Clear" || t == "AddAll" || t == "ReplaceAll")
    | _ => false
  | _ => false

/-- A decoded payload that is an object carrying a recognized `_tag` but an
embedded value (the `value` field, or an element of the `values` array)
failing the configured per-value matcher. -/
def hasFailingValue (m : JVal → Bool) : JVal → Bool
  | .obj fs =>
    match lookupField fs "_tag" with
    | some (.str t) =>
      if t == "Add" || t == "Remove" then
        match lookupField fs "value" with
        | some x => !(m x)
        | none => false
      else if t == "AddAll" || t == "ReplaceAll" then
        match lookupField fs "values" with
        | some (.arr xs) => xs.any (fun x => !(m x))
        | _ => false
      else false
    | _ => false
  | _ => false

/-- Engine configuration: redis key, updates channel (defaulting to the key
at every call site) and the configured per-value type matcher. -/
structure Cfg where
  key : String
  updatesChan : String
  matcher : JVal → Bool

/-- Redis commands issued by the fan-out path, recorded as a trace. -/
inductive RedisCmd where
  | sadd : String → List Ser → RedisCmd
  | srem : String → List Ser → RedisCmd
  | del : String → RedisCmd
  | multiDelSadd : String → List Ser → RedisCmd
  | publish : String → Ser → RedisCmd
deriving DecidableEq

/-- The redis effects of forwarding one operation (store.ts lines 133-153):
the store write for the variant — `Add` a set-add, `Remove` a set-remove,
`Clear` a key-delete, `AddAll` a multi-value set-add, `ReplaceAll` an atomic
delete-plus-add — followed by the publish of the serialized operation. -/
def forwardTrace (c : Cfg) (op : LiveSetOp JVal) : List RedisCmd :=
  (match op with
   | .Add v => [RedisCmd.sadd c.key [Ser.mk v]]
   | .Remove v => [RedisCmd.srem c.key [Ser.mk v]]
   | .Clear => [RedisCmd.del c.key]
   | .AddAll vs => [RedisCmd.sadd c.key (vs.map Ser.mk)]
   | .ReplaceAll vs => [RedisCmd.multiDelSadd c.key (vs.map Ser.mk)]) ++
  [RedisCmd.publish c.updatesChan (encodePayload op)]

/-- The mutable variables of `createLiveStore` (connection flags, the two
buffers, the seed flag), the redux store state, and the trace of redis
commands issued so far. -/
structure EngineState where
  pubIsUp : Bool
  subIsUp : Bool
  fanOutBuffer : List (LiveSetOp JVal)
  isLoadingSeed : Bool
  fanInBuffer : List (LiveSetOp JVal)
  state : Finset JVal
  trace : List RedisCmd
deriving DecidableEq

/-- The four action shapes the reducer discriminates (store.ts lines
159-174): a bare operation object (`caseWhen(isOp)`), a FanIn-wrapped one,
a FanOut-wrapped one, and anything else (`caseDefault`). -/
inductive Action where
  | localOp : LiveSetOp JVal → Action
  | fanInOp : LiveSetOp JVal → Action
  | fanOutOp : LiveSetOp JVal → Action
  | unknown : Action

/-- `fanOut` as it runs re-entrantly during `flushFanOutBuffer`: at that
point `fanOutBuffer` has already been reset to `[]`, so the
nonempty-buffer flush branch of `fanOut` (store.ts lines 130-132) cannot
fire; when `pubIsUp` the operation is forwarded (store write then publish),
otherwise it is pushed back onto the buffer. -/
def fanOutStep (c : Cfg) (E : EngineState) (op : LiveSetOp JVal) : EngineState :=
  if E.pubIsUp then { E with trace := E.trace ++ forwardTrace c op }
  else { E with fanOutBuffer := E.fanOutBuffer ++ [op] }

/-- `flushFanOutBuffer` (store.ts lines 115-121): reset the buffer, then
re-dispatch each drained operation as a FanOut action, oldest first.  Each
re-entrant dispatch goes through the reducer guard `caseWhen(isFanOut)`
(which re-checks the operation against the type matcher) and then into
`fanOut`. -/
def flushFanOutBuffer (c : Cfg) (E : EngineState) : EngineState :=
  List.foldl (fun acc op => if opMatches c.matcher op then fanOutStep c acc op else acc)
    { E with fanOutBuffer := [] } E.fanOutBuffer

/-- `fanOut` (store.ts lines 128-157): when the publish connection is
usable, flush any buffered operations first, then write the operation to the
shared store and publish it; otherwise append it to the outbound buffer and
return. -/
def fanOut (c : Cfg) (E : EngineState) (op : LiveSetOp JVal) : EngineState :=
  if E.pubIsUp then
    let E1 := if E.fanOutBuffer.isEmpty then E else flushFanOutBuffer c E
    { E1 with trace := E1.trace ++ forwardTrace c op }
  else { E with fanOutBuffer := E.fanOutBuffer ++ [op] }

/-- The redux reducer (store.ts lines 159-174).  The `caseWhen` guards
re-check every embedded value against the configured type matcher (`isOp`,
`isFanIn(isOp)`, `isFanOut(isOp)`); an action whose operation fails the
matcher falls through to `caseDefault`, leaving the state unchanged. -/
def reduce (c : Cfg) (E : EngineState) : Action → EngineState
  | .localOp op =>
    if opMatches c.matcher op then fanOut c { E with state := apply E.state op } op
    else E
  | .fanInOp op =>
    if opMatches c.matcher op then { E with state := apply E.state op }
    else E
  | .fanOutOp op =>
    if opMatches c.matcher op then fanOut c E op
    else E
  | .unknown => E

/-- `flushFanInBuffer` (store.ts lines 190-196): reset the inbound buffer
and dispatch each drained operation as a FanIn action, in FIFO order. -/
def flushFanInBuffer (c : Cfg) (E : EngineState) : EngineState :=
  List.foldl (fun acc op => reduce c acc (.fanInOp op))
    { E with fanInBuffer := [] } E.fanInBuffer

/-- `fanIn` (store.ts lines 179-188).  NOTE: nothing in `createLiveStore`
ever calls this function — the `message` handler dispatches FanIn actions
directly — so the inbound buffering it implements is dead code.  It is
embedded because the seed-load claims are about it. -/
def fanIn (c : Cfg) (E : EngineState) (op : LiveSetOp JVal) : EngineState :=
  if E.isLoadingSeed then { E with fanInBuffer := E.fanInBuffer ++ [op] }
  else
    let E1 := if E.fanInBuffer.isEmpty then E else flushFanInBuffer c E
    reduce c E1 (.fanInOp op)

/-- An element of a redis array reply.  A bulk string is identified with
the JSON value it parses to; any non-string element is collapsed to
`other`, since the `smembers` callback never inspects the structure of a
non-string element. -/
inductive RElem where
  | str : Ser → RElem
  | other : RElem
deriving DecidableEq

/-- A redis reply value as inspected by the `smembers` callback: an array
of elements, or any non-array value (collapsed to `other`, never
inspected further). -/
inductive RVal where
  | arr : List RElem → RVal
  | other : RVal
deriving DecidableEq

/-- The `smembers` callback outcome: a truthy `err`, or a reply value. -/
inductive FetchResult where
  | err : FetchResult
  | ok : RVal → FetchResult
deriving DecidableEq

/-- `isString` on a reply element. -/
def isStringR : RElem → Bool
  | .str _ => true
  | _ => false

/-- `isArrayOf(isString)` on the reply. -/
def isArrayOfStrings : RVal → Bool
  | .arr xs => xs.all isStringR
  | _ => false

/-- `JSON.parse(item)` on a reply element known to be a string. -/
def parseItem : RElem → JVal
  | .str s => s.val
  | _ => JVal.null

/-- Store.ts line 208: `isArrayOf(isString)(value) ? value.map(item =>
JSON.parse(item)) : []`. -/
def decodeMembers (v : RVal) : List JVal :=
  if isArrayOfStrings v then
    match v with
    | .arr xs => xs.map parseItem
    | _ => []
  else []

/-- The `smembers` callback (store.ts lines 204-213): on error nothing is
done (the `TODO handle this` branch is empty); on success a
`FanIn(ReplaceAll(decoded members))` baseline action is dispatched; in both
cases the inbound buffer is then flushed and the seed-loading flag
cleared. -/
def handleFetchReply (c : Cfg) (E : EngineState) : FetchResult → EngineState
  | .err =>
    { flushFanInBuffer c E with isLoadingSeed := false }
  | .ok v =>
    { flushFanInBuffer c (reduce c E (.fanInOp (.ReplaceAll (decodeMembers v)))) with
        isLoadingSeed := false }

/-- The transport and API events that drive the engine; every state
transition of the source happens inside one of these single-threaded
callbacks. -/
inductive REvent where
  | pubDown : REvent
  | subDown : REvent
  | pubReady : REvent
  | subConfirm : String → REvent
  | fetchReply : FetchResult → REvent
  | msg : String → Ser → REvent
  | apiOp : LiveSetOp JVal → REvent

/-- One engine step (store.ts lines 104-126 and 198-226): `pubDown` and
`subDown` are the "reconnecting"/"error"/"end" handlers, `pubReady` the pub
"ready" handler, `subConfirm` the "subscribe" confirmation, `fetchReply` the
`smembers` callback firing, `msg` the "message" handler (which parses the
payload, checks it with the recognizer and dispatches a FanIn action
directly — it does not go through `fanIn`), and `apiOp` a `RedisLiveSet`
API call dispatching a bare operation action. -/
def handleEvent (c : Cfg) (E : EngineState) : REvent → EngineState
  | .pubDown => { E with pubIsUp := false }
  | .subDown => { E with subIsUp := false }
  | .pubReady => flushFanOutBuffer c { E with pubIsUp := true }
  | .subConfirm ch =>
    if ch = c.updatesChan then { E with subIsUp := true, isLoadingSeed := true }
    else E
  | .fetchReply r => handleFetchReply c E r
  | .msg ch payload =>
    if ch = c.updatesChan then
      if isLiveSetOp c.matcher payload.val then
        match toOp payload.val with
        | some op => reduce c E (.fanInOp op)
        | none => E
      else E
    else E
  | .apiOp op => reduce c E (.localOp op)

/-- `createLiveStore` initial state: both connections down, buffers empty,
not loading, redux store created with the empty set, nothing sent. -/
def initEngine : EngineState :=
  { pubIsUp := false, subIsUp := false, fanOutBuffer := [], isLoadingSeed := false,
    fanInBuffer := [], state := ∅, trace := [] }

/-- Run a sequence of events through the engine. -/
def runEvents (c : Cfg) (E : EngineState) (evs : List REvent) : EngineState :=
  evs.foldl (handleEvent c) E

/-- Issue a sequence of local API operations. -/
def issueOps (c : Cfg) (E : EngineState) (ops : List (LiveSetOp JVal)) : EngineState :=
  ops.foldl (fun acc op => handleEvent c acc (.apiOp op)) E

/-- The `RedisLiveSet` wrapper state (newer index variant among the unnamed
sources): the engine plus the members-init bookkeeping.  Callbacks are
identified by number; `initCalls` records each invocation with its
argument. -/
structure WrapperState where
  engine : EngineState
  membersInitDone : Bool
  membersInitCallbacks : List Nat
  initCalls : List (Nat × Finset JVal)
deriving DecidableEq

/-- `onMembersLoaded` (unnamed index variant lines 51-63): on its first
invocation set the done flag, invoke every registered callback with the
current store state, and clear the list; later invocations do nothing. -/
def onMembersLoaded (w : WrapperState) : WrapperState :=
  if w.membersInitDone then w
  else
    { w with
        membersInitDone := true,
        initCalls := w.initCalls ++ w.membersInitCallbacks.map (fun i => (i, w.engine.state)),
        membersInitCallbacks := [] }

/-- `onMembersInit` (unnamed index variant lines 127-133): invoke the
callback immediately with the current state if the first seed load has
completed, otherwise register it. -/
def onMembersInit (w : WrapperState) (cb : Nat) : WrapperState :=
  if w.membersInitDone then { w with initCalls := w.initCalls ++ [(cb, w.engine.state)] }
  else { w with membersInitCallbacks := w.membersInitCallbacks ++ [cb] }

/-- Modelled from the spec: the `createLiveStore` variant that accepts the
`onMembersLoaded` argument (passed by the newer `RedisLiveSet` constructor,
unnamed source line 65) is missing from the sources — the store.ts present
takes five parameters.  Per spec sections 4.4 and 6 the members-init
callback fires when a seed load completes, i.e. when the `smembers`
callback finishes; the wrapper therefore routes every event to the engine
and invokes `onMembersLoaded` after a fetch reply has been handled. -/
def wrapperHandle (c : Cfg) (w : WrapperState) : REvent → WrapperState
  | .fetchReply r =>
    onMembersLoaded { w with engine := handleEvent c w.engine (.fetchReply r) }
  | e => { w with engine := handleEvent c w.engine e }

/-- A fresh wrapper around a fresh engine. -/
def initWrapper : WrapperState :=
  { engine := initEngine, membersInitDone := false, membersInitCallbacks := [],
    initCalls := [] }

/-- The closure state of one `RedisLiveSet.subscribe` listener (index.ts
lines 82-93): the last seen set (`null` before the first notification) and
the trace of callback invocations. -/
structure SubscriberState where
  lastSet : Option (Finset JVal)
  calls : List (Finset JVal)
deriving DecidableEq

/-- The redux subscription listener registered by `subscribe`: redux invokes
it after every dispatch; it calls the callback when either no state has been
seen yet (`lastSet === null`) or the new state differs by value equality,
then records the new state as seen. -/
def notifySubscriber (st : SubscriberState) (newSet : Finset JVal) : SubscriberState :=
  if st.lastSet = none ∨ st.lastSet ≠ some newSet then
    { lastSet := some newSet, calls := st.calls ++ [newSet] }
  else
    { lastSet := some newSet, calls := st.calls }

/-- A concrete configuration for witnesses: a numbers live-set on key
"nums" (the `createNumbersLiveSet` shorthand, channel defaulting to the
key). -/
def cfgNums : Cfg :=
  { key := "nums", updatesChan := "nums", matcher := isNumberJ }

/-- The engine right after the subscribe connection confirmed subscription
to the updates channel: seed loading, fetch pending. -/
def seedLoadingE : EngineState :=
  handleEvent cfgNums initEngine (.subConfirm "nums")

/-- The engine right after the publish connection reported "error"
(scenario 3): publish unusable, outbound buffer empty. -/
def bufferedE : EngineState :=
  handleEvent cfgNums initEngine .pubDown

/-- Scenario-4 event run: subscription confirmed; a remote `Add(99)`
message arrives before the store fetch resolves; the fetch then resolves to
the members 1, 2, 3 (as redis bulk strings). -/
def seedRaceEvents : List REvent :=
  [ .subConfirm "nums",
    .msg "nums" (encodePayload (.Add (.num 99))),
    .fetchReply (.ok (.arr [.str (Ser.mk (.num 1)), .str (Ser.mk (.num 2)),
      .str (Ser.mk (.num 3))])) ]

/-- The engine after the scenario-4 run. -/
def seedRaceResult : EngineState :=
  runEvents cfgNums initEngine seedRaceEvents

/-- A wrapper whose first seed load has completed (subscription confirmed,
fetch resolved to the single member 1). -/
def seededWrapper : WrapperState :=
  wrapperHandle cfgNums (wrapperHandle cfgNums initWrapper (.subConfirm "nums"))
    (.fetchReply (.ok (.arr [.str (Ser.mk (.num 1))])))

end LiveSet

namespace LiveSet

/-- C1: `apply(state, op)` handles all five variants with no default or
error case (the Lean translation is a total function on an exhaustive
match, mirroring the source switch), and: `Add(v)` is `s ∪ {v}` (a no-op if
present), `Remove(v)` is `s − {v}` (a no-op if absent), `Clear` is `∅`,
`AddAll(vs)` is `s ∪ vs`, and `ReplaceAll(vs)` is the deduplicated set of
`vs`, independent of the prior state (as is `Clear`). -/
theorem apply_variant_semantics {T : Type} [DecidableEq T]
    (s : Finset T) (v : T) (vs : List T) :
    apply s (.Add v) = s ∪ {v} ∧
    apply s (.Remove v) = s \ {v} ∧
    apply s .Clear = ∅ ∧
    apply s (.AddAll vs) = s ∪ vs.toFinset ∧
    apply s (.ReplaceAll vs) = vs.dedup.toFinset ∧
    (∀ s2 : Finset T, apply s2 (.ReplaceAll vs) = apply s (.ReplaceAll vs)) ∧
    (∀ s2 : Finset T, apply s2 .Clear = apply s .Clear) := by
  refine ⟨?_, ?_, rfl, rfl, ?_, fun s2 => rfl, fun s2 => rfl⟩
  · simp [apply, Finset.union_comm, Finset.insert_eq]
  · simp [apply, Finset.erase_eq]
  · show vs.toFinset = vs.dedup.toFinset
    exact Finset.ext fun a => by simp [List.mem_toFinset, List.mem_dedup]

theorem fanOutStep_state (c : Cfg) (E : EngineState) (op : LiveSetOp JVal) :
    (fanOutStep c E op).state = E.state := by
  unfold fanOutStep
  split <;> rfl

theorem foldl_fanOutStep_state (c : Cfg) (l : List (LiveSetOp JVal)) (A : EngineState) :
    (List.foldl (fun acc op => if opMatches c.matcher op then fanOutStep c acc op else acc)
      A l).state = A.state := by
  induction l generalizing A with
  | nil => rfl
  | cons op l ih =>
    simp only [List.foldl_cons]
    rw [ih]
    split <;> simp [fanOutStep_state]

theorem flushFanOutBuffer_state (c : Cfg) (E : EngineState) :
    (flushFanOutBuffer c E).state = E.state := by
  unfold flushFanOutBuffer
  rw [foldl_fanOutStep_state]

theorem fanOut_state (c : Cfg) (E : EngineState) (op : LiveSetOp JVal) :
    (fanOut c E op).state = E.state := by
  unfold fanOut
  split
  · split <;> simp [flushFanOutBuffer_state]
  · rfl

/-- C9: dispatching an outbound-forward-request (FanOut) action or an
unrecognized action leaves the redux Set State unchanged; by the shape of
the reducer only the local-operation and FanIn branches touch it. -/
theorem reducer_fanout_unknown_frame (c : Cfg) (E : EngineState) (op : LiveSetOp JVal) :
    (reduce c E (.fanOutOp op)).state = E.state ∧
    (reduce c E .unknown).state = E.state := by
  refine ⟨?_, rfl⟩
  show (if opMatches c.matcher op then fanOut c E op else E).state = E.state
  split <;> simp [fanOut_state]

theorem isLiveSetOp_obj_false (m : JVal → Bool) (fs : List (String × JVal)) (t : String)
    (htag : lookupField fs "_tag" = some (.str t))
    (hAdd : t = "Add" → matchField fs "value" m = false)
    (hRem : t = "Remove" → matchField fs "value" m = false)
    (hClear : t ≠ "Clear")
    (hAll : t = "AddAll" → matchField fs "values" (isArrayOfJ m) = false)
    (hRep : t = "ReplaceAll" → matchField fs "values" (isArrayOfJ m) = false) :
    isLiveSetOp m (.obj fs) = false := by
  have e1 : isAdd m (.obj fs) = false := by
    by_cases ht : t = "Add"
    · subst ht
      simp [isAdd, isValueTag, htag, hAdd rfl]
    · simp [isAdd, isValueTag, htag, ht]
  have e2 : isRemove m (.obj fs) = false := by
    by_cases ht : t = "Remove"
    · subst ht
      simp [isRemove, isValueTag, htag, hRem rfl]
    · simp [isRemove, isValueTag, htag, ht]
  have e3 : isClear (.obj fs) = false := by
    simp [isClear, isValueTag, htag, hClear]
  have e4 : isAddAll m (.obj fs) = false := by
    by_cases ht : t = "AddAll"
    · subst ht
      simp [isAddAll, isValueTag, htag, hAll rfl]
    · simp [isAddAll, isValueTag, htag, ht]
  have e5 : isReplaceAll m (.obj fs) = false := by
    by_cases ht : t = "ReplaceAll"
    · subst ht
      simp [isReplaceAll, isValueTag, htag, hRep rfl]
    · simp [isReplaceAll, isValueTag, htag, ht]
  simp [isLiveSetOp, e1, e2, e3, e4, e5]

theorem all_eq_false_of_mem_not {m : JVal → Bool} {xs : List JVal} {x : JVal}
    (hx : x ∈ xs) (hmx : m x = false) : xs.all m = false := by
  refine Bool.eq_false_iff.mpr (fun hall => ?_)
  have := List.all_eq_true.mp hall x hx
  rw [hmx] at this
  exact Bool.false_ne_true this

theorem malformed_not_op (m : JVal → Bool) (v : JVal)
    (h : (hasUnknownTag v || hasFailingValue m v) = true) :
    isLiveSetOp m v = false := by
  cases v with
  | obj fs =>
    cases htag : lookupField fs "_tag" with
    | none =>
      exfalso
      simp [hasUnknownTag, hasFailingValue, htag] at h
    | some x =>
      cases x with
      | str t =>
        by_cases hA : t = "Add"
        · subst hA
          simp only [hasUnknownTag, hasFailingValue, htag] at h
          simp at h
          cases hv : lookupField fs "value" with
          | none => rw [hv] at h; simp at h
          | some x =>
            rw [hv] at h
            simp only [Bool.not_eq_true'] at h
            exact isLiveSetOp_obj_false m fs "Add" htag
              (fun _ => by simp [matchField, hv, h])
              (fun hc => absurd hc (by decide))
              (by decide)
              (fun hc => absurd hc (by decide))
              (fun hc => absurd hc (by decide))
        · by_cases hR : t = "Remove"
          · subst hR
            simp only [hasUnknownTag, hasFailingValue, htag] at h
            simp at h
            cases hv : lookupField fs "value" with
            | none => rw [hv] at h; simp at h
            | some x =>
              rw [hv] at h
              simp only [Bool.not_eq_true'] at h
              exact isLiveSetOp_obj_false m fs "Remove" htag
                (fun hc => absurd hc (by decide))
                (fun _ => by simp [matchField, hv, h])
                (by decide)
                (fun hc => absurd hc (by decide))
                (fun hc => absurd hc (by decide))
          · by_cases hC : t = "Clear"
            · subst hC
              exfalso
              simp [hasUnknownTag, hasFailingValue, htag] at h
            · by_cases hAA : t = "AddAll"
              · subst hAA
                simp only [hasUnknownTag, hasFailingValue, htag] at h
                simp at h
                cases hv : lookupField fs "values" with
                | none => rw [hv] at h; simp at h
                | some x =>
                  cases x <;> rw [hv] at h <;> try simp at h
                  rename_i xs
                  obtain ⟨x, hx, hmx⟩ := h
                  exact isLiveSetOp_obj_false m fs "AddAll" htag
                    (fun hc => absurd hc (by decide))
                    (fun hc => absurd hc (by decide))
                    (by decide)
                    (fun _ => by
                      simp only [matchField, hv, isArrayOfJ]
                      exact all_eq_false_of_mem_not hx hmx)
                    (fun hc => absurd hc (by decide))
              · by_cases hRA : t = "ReplaceAll"
                · subst hRA
                  simp only [hasUnknownTag, hasFailingValue, htag] at h
                  simp at h
                  cases hv : lookupField fs "values" with
                  | none => rw [hv] at h; simp at h
                  | some x =>
                    cases x <;> rw [hv] at h <;> try simp at h
                    rename_i xs
                    obtain ⟨x, hx, hmx⟩ := h
                    exact isLiveSetOp_obj_false m fs "ReplaceAll" htag
                      (fun hc => absurd hc (by decide))
                      (fun hc => absurd hc (by decide))
                      (by decide)
                      (fun hc => absurd hc (by decide))
                      (fun _ => by
                        simp only [matchField, hv, isArrayOfJ]
                        exact all_eq_false_of_mem_not hx hmx)
                · exact isLiveSetOp_obj_false m fs t htag
                    (fun hc => absurd hc hA)
                    (fun hc => absurd hc hR)
                    hC
                    (fun hc => absurd hc hAA)
                    (fun hc => absurd hc hRA)
      | null => exfalso; simp [hasUnknownTag, hasFailingValue, htag] at h
      | bool b => exfalso; simp [hasUnknownTag, hasFailingValue, htag] at h
      | num n => exfalso; simp [hasUnknownTag, hasFailingValue, htag] at h
      | arr xs => exfalso; simp [hasUnknownTag, hasFailingValue, htag] at h
      | obj gs => exfalso; simp [hasUnknownTag, hasFailingValue, htag] at h
  | null => simp [hasUnknownTag, hasFailingValue] at h
  | bool b => simp [hasUnknownTag, hasFailingValue] at h
  | num n => simp [hasUnknownTag, hasFailingValue] at h
  | str s => simp [hasUnknownTag, hasFailingValue] at h
  | arr xs => simp [hasUnknownTag, hasFailingValue] at h

/-- C7: an incoming broadcast payload whose decoded value carries an
unrecognized discriminator tag, or an embedded value failing the configured
matcher, is rejected by the operation recognizer and dropped silently: the
whole engine state (local Set State included) is unchanged and no command
is issued (and the handler, being a total function, raises nothing). -/
theorem malformed_payload_dropped (c : Cfg) (E : EngineState) (ch : String) (p : Ser)
    (h : (hasUnknownTag p.val || hasFailingValue c.matcher p.val) = true) :
    handleEvent c E (.msg ch p) = E := by
  have hno := malformed_not_op c.matcher p.val h
  show (if ch = c.updatesChan then
      if isLiveSetOp c.matcher p.val then
        match toOp p.val with
        | some op => reduce c E (.fanInOp op)
        | none => E
      else E
    else E) = E
  rw [hno]
  simp

theorem malformed_payload_dropped_witness :
    (hasUnknownTag (Ser.mk (JVal.obj [("_tag", JVal.str "Bogus")])).val ||
      hasFailingValue cfgNums.matcher
        (Ser.mk (JVal.obj [("_tag", JVal.str "Bogus")])).val) = true ∧
    handleEvent cfgNums initEngine
      (.msg "nums" (Ser.mk (JVal.obj [("_tag", JVal.str "Bogus")]))) = initEngine :=
  ⟨by decide,
    malformed_payload_dropped cfgNums initEngine "nums"
      (Ser.mk (JVal.obj [("_tag", JVal.str "Bogus")])) (by decide)⟩

/-- C10: when the seed-load fetch succeeds but the reply is not an array of
strings, the decoded member list is empty, so the baseline dispatched by the
`smembers` callback is `FanIn(ReplaceAll([]))` and the post-baseline local
state is the empty set regardless of the prior state (the buffer flush and
flag reset only happen afterwards, as the last conjunct records). -/
theorem malformed_fetch_empty_baseline (c : Cfg) (E : EngineState) (v : RVal)
    (h : isArrayOfStrings v = false) :
    decodeMembers v = [] ∧
    (reduce c E (.fanInOp (.ReplaceAll (decodeMembers v)))).state = ∅ ∧
    handleFetchReply c E (.ok v)
      = { flushFanInBuffer c (reduce c E (.fanInOp (.ReplaceAll (decodeMembers v)))) with
          isLoadingSeed := false } := by
  have hd : decodeMembers v = [] := by
    unfold decodeMembers
    rw [h]
    simp
  refine ⟨hd, ?_, rfl⟩
  rw [hd]
  show (if opMatches c.matcher (.ReplaceAll []) then
      { E with state := apply E.state (.ReplaceAll []) } else E).state = ∅
  simp [opMatches, apply]

theorem malformed_fetch_empty_baseline_witness :
    isArrayOfStrings RVal.other = false ∧
    decodeMembers RVal.other = [] ∧
    (reduce cfgNums { initEngine with state := {JVal.num 7} }
      (.fanInOp (.ReplaceAll (decodeMembers RVal.other)))).state = ∅ :=
  ⟨by decide, (malformed_fetch_empty_baseline cfgNums
      { initEngine with state := {JVal.num 7} } RVal.other (by decide)).1,
    (malformed_fetch_empty_baseline cfgNums
      { initEngine with state := {JVal.num 7} } RVal.other (by decide)).2.1⟩

/-- C4 (code bug): when the `smembers` fetch fails during a seed load, the
engine's entire transition is to clear the seed-loading flag (the error
branch of the callback is an empty `TODO handle this`): no state change,
no redis command, and the engine has no failure channel at all through
which anything could be surfaced to the embedding application. -/
theorem fetch_failure_silently_ignored :
    handleEvent cfgNums seedLoadingE (.fetchReply .err)
      = { seedLoadingE with isLoadingSeed := false } := by
  decide

/-- C2 (code bug): in the scenario-4 race the remote `Add(99)` arriving
during the seed load is applied immediately (the `message` handler
dispatches FanIn actions directly and never routes them through `fanIn`, so
the inbound buffer stays empty) and the later `ReplaceAll` baseline
overwrites it: the final local state is `{1,2,3}`, not the `{1,2,3,99}` the
claim requires, and the buffered-replay machinery never ran. -/
theorem seed_race_loses_concurrent_add :
    seedRaceResult.state = ({JVal.num 1, JVal.num 2, JVal.num 3} : Finset JVal) ∧
    seedRaceResult.state ≠
      ({JVal.num 1, JVal.num 2, JVal.num 3, JVal.num 99} : Finset JVal) ∧
    seedRaceResult.isLoadingSeed = false ∧
    seedRaceResult.fanInBuffer = [] := by
  decide

end LiveSet

namespace LiveSet

theorem fanOutStep_up (c : Cfg) (E : EngineState) (op : LiveSetOp JVal)
    (hup : E.pubIsUp = true) :
    fanOutStep c E op = { E with trace := E.trace ++ forwardTrace c op } := by
  unfold fanOutStep
  rw [hup]
  simp

theorem foldl_fanOutStep_forward (c : Cfg) (l : List (LiveSetOp JVal)) (A : EngineState)
    (hup : A.pubIsUp = true)
    (hm : ∀ op ∈ l, opMatches c.matcher op = true) :
    List.foldl (fun acc op => if opMatches c.matcher op then fanOutStep c acc op else acc) A l
      = { A with trace := A.trace ++ l.flatMap (forwardTrace c) } := by
  induction l generalizing A with
  | nil => simp
  | cons op l ih =>
    rw [List.foldl_cons, if_pos (hm op (List.mem_cons_self op l)), fanOutStep_up c A op hup]
    rw [ih { A with trace := A.trace ++ forwardTrace c op } hup
      (fun o ho => hm o (List.mem_cons_of_mem op ho))]
    simp [List.append_assoc]

theorem flushFanOutBuffer_up (c : Cfg) (E : EngineState)
    (hup : E.pubIsUp = true)
    (hbuf : ∀ op ∈ E.fanOutBuffer, opMatches c.matcher op = true) :
    flushFanOutBuffer c E
      = { E with
          fanOutBuffer := [],
          trace := E.trace ++ E.fanOutBuffer.flatMap (forwardTrace c) } := by
  unfold flushFanOutBuffer
  rw [foldl_fanOutStep_forward c E.fanOutBuffer { E with fanOutBuffer := [] } hup hbuf]

theorem fanOut_up (c : Cfg) (E : EngineState) (op : LiveSetOp JVal)
    (hup : E.pubIsUp = true)
    (hbuf : ∀ o ∈ E.fanOutBuffer, opMatches c.matcher o = true) :
    fanOut c E op
      = { E with
          fanOutBuffer := [],
          trace := E.trace ++ E.fanOutBuffer.flatMap (forwardTrace c)
            ++ forwardTrace c op } := by
  obtain ⟨pu, su, fob, ils, fib, st, tr⟩ := E
  have hpu : pu = true := hup
  subst hpu
  cases fob with
  | nil => simp [fanOut]
  | cons o os =>
    have hflush := flushFanOutBuffer_up c ⟨true, su, o :: os, ils, fib, st, tr⟩ rfl hbuf
    simp only [fanOut, List.isEmpty_cons, if_false]
    simp [hflush, List.append_assoc]

theorem apiOp_down (c : Cfg) (E : EngineState) (op : LiveSetOp JVal)
    (hup : E.pubIsUp = false) (hm : opMatches c.matcher op = true) :
    handleEvent c E (.apiOp op)
      = { E with
          state := apply E.state op,
          fanOutBuffer := E.fanOutBuffer ++ [op] } := by
  obtain ⟨pu, su, fob, ils, fib, st, tr⟩ := E
  have hpu : pu = false := hup
  subst hpu
  show reduce c _ (.localOp op) = _
  simp [reduce, fanOut, hm]

theorem issueOps_down (c : Cfg) (E : EngineState) (ops : List (LiveSetOp JVal))
    (hup : E.pubIsUp = false) (hm : ∀ op ∈ ops, opMatches c.matcher op = true) :
    (issueOps c E ops).pubIsUp = false ∧
    (issueOps c E ops).fanOutBuffer = E.fanOutBuffer ++ ops ∧
    (issueOps c E ops).trace = E.trace := by
  induction ops generalizing E with
  | nil => exact ⟨hup, by simp [issueOps], rfl⟩
  | cons op ops ih =>
    have hstep := apiOp_down c E op hup (hm op (List.mem_cons_self op ops))
    have htail := ih
      { E with
        state := apply E.state op,
        fanOutBuffer := E.fanOutBuffer ++ [op] }
      hup (fun o ho => hm o (List.mem_cons_of_mem op ho))
    simp only [issueOps, List.foldl_cons] at htail ⊢
    rw [hstep]
    exact ⟨htail.1, by rw [htail.2.1]; simp, htail.2.2⟩

/-- C3: operations issued while the publish connection is unusable are
appended to the outbound queue in issue order with nothing forwarded; the
"ready" signal flushes the whole queue oldest-first, each queued operation
forwarded exactly once as its store write followed by its publish; and once
the connection is usable, any dispatch of a new operation first forwards the
(entire) buffered queue and only then the new operation. -/
theorem outbound_queue_fifo (c : Cfg) (E : EngineState) (ops : List (LiveSetOp JVal))
    (hup : E.pubIsUp = false)
    (hops : ∀ op ∈ ops, opMatches c.matcher op = true)
    (hbuf : ∀ op ∈ E.fanOutBuffer, opMatches c.matcher op = true) :
    (issueOps c E ops).fanOutBuffer = E.fanOutBuffer ++ ops ∧
    (issueOps c E ops).trace = E.trace ∧
    handleEvent c (issueOps c E ops) .pubReady
      = { issueOps c E ops with
          pubIsUp := true,
          fanOutBuffer := [],
          trace := E.trace ++ (E.fanOutBuffer ++ ops).flatMap (forwardTrace c) } ∧
    (∀ E2 : EngineState, ∀ op2 : LiveSetOp JVal, E2.pubIsUp = true →
      opMatches c.matcher op2 = true →
      (∀ o ∈ E2.fanOutBuffer, opMatches c.matcher o = true) →
      (handleEvent c E2 (.apiOp op2)).trace
        = E2.trace ++ E2.fanOutBuffer.flatMap (forwardTrace c) ++ forwardTrace c op2) := by
  obtain ⟨h1, h2, h3⟩ := issueOps_down c E ops hup hops
  refine ⟨h2, h3, ?_, ?_⟩
  · show flushFanOutBuffer c { issueOps c E ops with pubIsUp := true } = _
    rw [flushFanOutBuffer_up c { issueOps c E ops with pubIsUp := true } rfl ?_]
    · show ({ issueOps c E ops with
          pubIsUp := true,
          fanOutBuffer := ([] : List (LiveSetOp JVal)),
          trace := (issueOps c E ops).trace
            ++ (issueOps c E ops).fanOutBuffer.flatMap (forwardTrace c) } : EngineState) = _
      rw [h2, h3]
    · show ∀ o ∈ (issueOps c E ops).fanOutBuffer, opMatches c.matcher o = true
      rw [h2]
      intro o ho
      rcases List.mem_append.mp ho with hh | hh
      · exact hbuf o hh
      · exact hops o hh
  · intro E2 op2 hup2 hm2 hb2
    show (reduce c E2 (.localOp op2)).trace = _
    simp only [reduce]
    rw [if_pos hm2]
    rw [fanOut_up c { E2 with state := apply E2.state op2 } op2 hup2 hb2]

theorem outbound_queue_fifo_witness :
    (issueOps cfgNums bufferedE [LiveSetOp.Add (JVal.num 10)]).fanOutBuffer
      = bufferedE.fanOutBuffer ++ [LiveSetOp.Add (JVal.num 10)] ∧
    (issueOps cfgNums bufferedE [LiveSetOp.Add (JVal.num 10)]).trace = bufferedE.trace ∧
    handleEvent cfgNums (issueOps cfgNums bufferedE [LiveSetOp.Add (JVal.num 10)]) .pubReady
      = { issueOps cfgNums bufferedE [LiveSetOp.Add (JVal.num 10)] with
          pubIsUp := true,
          fanOutBuffer := [],
          trace := bufferedE.trace
            ++ (bufferedE.fanOutBuffer ++ [LiveSetOp.Add (JVal.num 10)]).flatMap
              (forwardTrace cfgNums) } :=
  ⟨(outbound_queue_fifo cfgNums bufferedE [LiveSetOp.Add (JVal.num 10)]
      (by decide) (by decide) (by decide)).1,
   (outbound_queue_fifo cfgNums bufferedE [LiveSetOp.Add (JVal.num 10)]
      (by decide) (by decide) (by decide)).2.1,
   (outbound_queue_fifo cfgNums bufferedE [LiveSetOp.Add (JVal.num 10)]
      (by decide) (by decide) (by decide)).2.2.1⟩

end LiveSet

namespace LiveSet

/-- C5 counterexample: starting from the fresh engine, dispatching
`Remove(5)` leaves the set unchanged (still empty), yet the redux listener
registered by `subscribe` — whose `lastSet` is still `null` — invokes the
callback on this very first dispatch.  The claim that a subscriber
registered before any change is never invoked for a no-op operation is
therefore false on the code. -/
theorem subscriber_noop_invoked_counterexample :
    (handleEvent cfgNums initEngine (.apiOp (.Remove (.num 5)))).state
      = initEngine.state ∧
    (notifySubscriber { lastSet := none, calls := [] }
        (handleEvent cfgNums initEngine (.apiOp (.Remove (.num 5)))).state).calls
      = [(∅ : Finset JVal)] := by
  decide

/-- C5 amended: after every dispatch the listener invokes the callback iff
it has not yet recorded a notified state (the first dispatch after
registration always invokes it, even for a no-op operation) or the new
state differs by value equality from the previously notified one; once a
subscriber has been notified, an operation that leaves the set unchanged
does not invoke it again. -/
theorem subscriber_notify_amended (c : Cfg) (E : EngineState)
    (st : SubscriberState) (op : LiveSetOp JVal)
    (hseen : st.lastSet = some E.state)
    (hnoop : apply E.state op = E.state) :
    (handleEvent c E (.apiOp op)).state = E.state ∧
    (notifySubscriber st (handleEvent c E (.apiOp op)).state).calls = st.calls ∧
    (∀ st2 : SubscriberState, st2.lastSet = none →
      ∀ s : Finset JVal, (notifySubscriber st2 s).calls = st2.calls ++ [s]) ∧
    (∀ st3 : SubscriberState, ∀ s prev : Finset JVal,
      st3.lastSet = some prev → s ≠ prev →
      (notifySubscriber st3 s).calls = st3.calls ++ [s]) := by
  have h1 : (handleEvent c E (.apiOp op)).state = E.state := by
    show (reduce c E (.localOp op)).state = E.state
    simp only [reduce]
    split
    · rw [fanOut_state]
      exact hnoop
    · rfl
  refine ⟨h1, ?_, ?_, ?_⟩
  · rw [h1]
    unfold notifySubscriber
    rw [if_neg (by simp [hseen])]
  · intro st2 h2 s
    unfold notifySubscriber
    rw [if_pos (Or.inl h2)]
  · intro st3 s prev hlast hne
    have hx : st3.lastSet ≠ some s := by
      rw [hlast]
      intro hc
      exact hne (Option.some.inj hc).symm
    unfold notifySubscriber
    rw [if_pos (Or.inr hx)]

theorem subscriber_notify_amended_witness :
    (handleEvent cfgNums initEngine (.apiOp (.Remove (.num 5)))).state
      = initEngine.state ∧
    (notifySubscriber { lastSet := some ∅, calls := [] }
        (handleEvent cfgNums initEngine (.apiOp (.Remove (.num 5)))).state).calls
      = ([] : List (Finset JVal)) :=
  ⟨(subscriber_notify_amended cfgNums initEngine
      { lastSet := some ∅, calls := [] } (.Remove (.num 5)) rfl (by decide)).1,
   (subscriber_notify_amended cfgNums initEngine
      { lastSet := some ∅, calls := [] } (.Remove (.num 5)) rfl (by decide)).2.1⟩

/-- C6: an operation whose embedded values all satisfy the configured
matcher round-trips through the wire format: the recognizer accepts the
serialized form, and the `message`-handler decoding pipeline (parse, then
recognize) yields the operation back unchanged. -/
theorem encode_decode_roundtrip (m : JVal → Bool) (op : LiveSetOp JVal)
    (h : opMatches m op = true) :
    isLiveSetOp m (encodeOp op) = true ∧
    decodePayload m (encodePayload op) = some op := by
  have hrec : isLiveSetOp m (encodeOp op) = true := by
    cases op with
    | Add v =>
      simp only [opMatches] at h
      simp [encodeOp, isLiveSetOp, isAdd, isValueTag, matchField, lookupField, h]
    | Remove v =>
      simp only [opMatches] at h
      simp [encodeOp, isLiveSetOp, isAdd, isRemove, isValueTag, matchField,
        lookupField, h]
    | Clear =>
      simp [encodeOp, isLiveSetOp, isAdd, isRemove, isClear, isValueTag,
        matchField, lookupField]
    | AddAll vs =>
      simp only [opMatches] at h
      simp [encodeOp, isLiveSetOp, isAdd, isRemove, isClear, isAddAll,
        isValueTag, matchField, lookupField, isArrayOfJ, h]
    | ReplaceAll vs =>
      simp only [opMatches] at h
      simp [encodeOp, isLiveSetOp, isAdd, isRemove, isClear, isAddAll,
        isReplaceAll, isValueTag, matchField, lookupField, isArrayOfJ, h]
  have hto : toOp (encodeOp op) = some op := by
    cases op <;> simp [encodeOp, toOp, lookupField]
  exact ⟨hrec, by simp [decodePayload, encodePayload, hrec, hto]⟩

theorem encode_decode_roundtrip_witness :
    opMatches isNumberJ (LiveSetOp.Add (JVal.num 5)) = true ∧
    isLiveSetOp isNumberJ (encodeOp (LiveSetOp.Add (JVal.num 5))) = true ∧
    decodePayload isNumberJ (encodePayload (LiveSetOp.Add (JVal.num 5)))
      = some (LiveSetOp.Add (JVal.num 5)) :=
  ⟨by decide,
   (encode_decode_roundtrip isNumberJ (LiveSetOp.Add (JVal.num 5)) (by decide)).1,
   (encode_decode_roundtrip isNumberJ (LiveSetOp.Add (JVal.num 5)) (by decide)).2⟩

/-- C8: a members-init callback is invoked exactly once with the post-seed
state: registered after the first seed load completed, it is invoked
synchronously, once, and not retained; registered before, it is only
recorded; when the first seed load completes, every recorded callback is
invoked once with the state at that moment and the list is cleared; and
once the done flag is set, no later event (later seed loads and state
changes included) produces any further invocation. -/
theorem members_init_once (c : Cfg) (w : WrapperState) (cb : Nat) :
    (w.membersInitDone = true →
      onMembersInit w cb
        = { w with initCalls := w.initCalls ++ [(cb, w.engine.state)] }) ∧
    (w.membersInitDone = false →
      onMembersInit w cb
        = { w with membersInitCallbacks := w.membersInitCallbacks ++ [cb] }) ∧
    (w.membersInitDone = false →
      onMembersLoaded w
        = { w with
            membersInitDone := true,
            initCalls := w.initCalls
              ++ w.membersInitCallbacks.map (fun i => (i, w.engine.state)),
            membersInitCallbacks := [] }) ∧
    (w.membersInitDone = true → ∀ ev : REvent,
      (wrapperHandle c w ev).membersInitDone = true ∧
      (wrapperHandle c w ev).initCalls = w.initCalls ∧
      (wrapperHandle c w ev).membersInitCallbacks = w.membersInitCallbacks) := by
  refine ⟨?_, ?_, ?_, ?_⟩
  · intro hdone
    unfold onMembersInit
    rw [if_pos hdone]
  · intro hnot
    unfold onMembersInit
    rw [if_neg (by simp [hnot])]
  · intro hnot
    unfold onMembersLoaded
    rw [if_neg (by simp [hnot])]
  · intro hdone ev
    cases ev <;> simp [wrapperHandle, onMembersLoaded, hdone]

theorem members_init_once_witness :
    seededWrapper.membersInitDone = true ∧
    onMembersInit seededWrapper 0
      = { seededWrapper with
          initCalls := seededWrapper.initCalls
            ++ [(0, seededWrapper.engine.state)] } ∧
    (wrapperHandle cfgNums seededWrapper (.fetchReply .err)).initCalls
      = seededWrapper.initCalls :=
  ⟨by decide,
   (members_init_once cfgNums seededWrapper 0).1 (by decide),
   ((members_init_once cfgNums seededWrapper 0).2.2.2 (by decide)
      (.fetchReply .err)).2.1⟩

end LiveSet
